import Mathlib

/-!
Shallow embedding of the Azure DevOps work-items proxy (`azu_api.py`).

The program is a thin HTTP proxy: a text sanitizer (`strip_html`), a
best-effort comment fetcher (`get_comments_for_item`), a work-item query
engine (`get_work_items_by_sprint`), a sprint lister (`list_sprints`),
and a summary reducer (`get_work_items_summary`).

Remote HTTP interactions are modelled by oracles: each outbound call
site receives an `HttpOutcome` (either a raised exception, or a response
with a status code and an already-parsed JSON body).  Every modelled
endpoint additionally returns the list of outbound remote calls it
performed, in order, so that claims about which calls are issued can be
stated.  Python strings are modelled as `String` / `List Char`; JSON
fields that may be absent are modelled as `Option`.
-/

/-- Python truthiness of an optional string (`os.getenv` result):
`None` and `""` are falsy. -/
def truthyStr : Option String → Bool
  | none => false
  | some s => s ≠ ""

/-- The static configuration: `ORG = os.getenv("AZURE_ORG")`,
`PROJECT = os.getenv("AZURE_PROJECT")`. -/
structure Config where
  org : Option String
  project : Option String

/-- `all([ORG, PROJECT])` — the configuration check guarding every data
endpoint. -/
def configOk (cfg : Config) : Bool :=
  truthyStr cfg.org && truthyStr cfg.project

/-- Whether the regex fragment `[^>]+>` matches at the start of the
remaining input: the next character exists and is not a closing angle
bracket, and a closing angle bracket occurs later.  (Since the character
class excludes the closing bracket, the greedy run always ends exactly
before the first closing bracket, so matching is equivalent to this
test.)  Used to decide whether `<` begins a removable `<[^>]+>` tag. -/
def closesTag : List Char → Bool
  | [] => false
  | c :: cs => decide (c ≠ '>') && cs.contains '>'

/-- One pass of `re.sub(r'<[^>]+>', '', text)` over the character list.
The flag records whether we are currently inside a tag being removed
(skipping up to and including the first closing bracket).  A `<` starts
a removal exactly when the rest of the regex matches (`closesTag`),
mirroring leftmost non-overlapping regex substitution. -/
def stripGo : Bool → List Char → List Char
  | _, [] => []
  | true, c :: cs => if c = '>' then stripGo false cs else stripGo true cs
  | false, c :: cs =>
      if c = '<' && closesTag cs then stripGo true cs
      else c :: stripGo false cs

/-- `re.sub(r'<[^>]+>', '', text)` on a character list. -/
def stripTagsL (cs : List Char) : List Char :=
  stripGo false cs

/-- Python `str.strip()` on a character list: remove leading and
trailing whitespace. -/
def trimL (cs : List Char) : List Char :=
  ((cs.dropWhile Char.isWhitespace).reverse.dropWhile Char.isWhitespace).reverse

/-- `strip_html` (azu_api.py lines 62-67): `if not text: return ""`,
then remove `<[^>]+>` tags and strip surrounding whitespace.  The
argument is an `Option` so that an absent (`None`) input is covered by
the same falsiness test as the empty string. -/
def strip_html (text : Option String) : String :=
  match text with
  | none => ""
  | some s => if s = "" then "" else String.mk (trimL (stripTagsL s.toList))

/-- Whether the regex `<[^>]+>` matches anywhere in the character list
(an opening bracket, at least one character that is not a closing
bracket, then a closing bracket). -/
def hasTag : List Char → Bool
  | [] => false
  | c :: cs => (decide (c = '<') && closesTag cs) || hasTag cs

/-- The literal substring removed from the Authorization header value:
`"Bearer "`. -/
def bearerPat : List Char := ['B', 'e', 'a', 'r', 'e', 'r', ' ']

/-- Whether the first list is a prefix of the second (decidable,
structural). -/
def startsWith : List Char → List Char → Bool
  | [], _ => true
  | _ :: _, [] => false
  | p :: ps, c :: cs => p = c && startsWith ps cs

/-- Fuel-indexed core of Python `str.replace("Bearer ", "")`: scan left
to right; at each position, if the pattern starts here, delete it and
continue scanning after it, otherwise keep the character.  The fuel is
always at least the list length, and every step consumes at least one
character, so the fuel-exhausted branch is unreachable. -/
def removeBearerGo : Nat → List Char → List Char
  | _, [] => []
  | 0, l => l
  | fuel + 1, c :: cs =>
      if startsWith bearerPat (c :: cs) then removeBearerGo fuel ((c :: cs).drop 7)
      else c :: removeBearerGo fuel cs

/-- Python `s.replace("Bearer ", "")`: delete every (leftmost,
non-overlapping) occurrence of the substring anywhere in the value. -/
def removeBearer (l : List Char) : List Char :=
  removeBearerGo l.length l

/-- Whether `"Bearer "` occurs as a substring. -/
def hasBearer : List Char → Bool
  | [] => false
  | c :: cs => startsWith bearerPat (c :: cs) || hasBearer cs

/-- PAT extraction shared by all three data endpoints (azu_api.py lines
280, 348, 375): `authorization.replace("Bearer ", "").strip()`. -/
def extractPat (authorization : String) : String :=
  String.mk (trimL (removeBearer authorization.toList))

/-- Outcome of one outbound HTTP call: either the client raised an
exception (network error, parse error, ...), or a response arrived with
a status code and a parsed body. -/
inductive HttpOutcome (β : Type) where
  | exc : HttpOutcome β
  | resp : Nat → β → HttpOutcome β
deriving DecidableEq

/-- Trace entry for one outbound remote call, recording which endpoint
was hit and the data that went out with it. -/
inductive RemoteCall where
  | wiqlCall : String → RemoteCall
  | detailCall : List Nat → RemoteCall
  | commentCall : Nat → RemoteCall
  | iterationsCall : String → RemoteCall
deriving DecidableEq

/-- A remote identity object (`createdBy` in a comment), which may lack
a `displayName`. -/
structure RawIdent where
  displayName : Option String
deriving DecidableEq

/-- One comment as returned by the remote comments endpoint. -/
structure RawComment where
  id : Option Nat
  text : Option String
  createdBy : Option RawIdent
  createdDate : Option String
deriving DecidableEq

/-- The reduced comment record built by `get_comments_for_item`. -/
structure CommentR where
  id : Option Nat
  text : String
  created_by : Option String
  created_date : Option String
deriving DecidableEq

/-- The per-comment reduction in `get_comments_for_item` (lines 82-87):
`comment.get('id')`, `strip_html(comment.get('text', ''))`,
`comment.get('createdBy', \x7b\x7d).get('displayName')`,
`comment.get('createdDate')`. -/
def reduceComment (c : RawComment) : CommentR :=
  { id := c.id
    text := strip_html (some (c.text.getD ""))
    created_by := match c.createdBy with
      | some ident => ident.displayName
      | none => none
    created_date := c.createdDate }

/-- `get_comments_for_item` (lines 70-90): the whole body is wrapped in
`try ... except Exception: pass`, so a raised exception yields the
comments accumulated so far (the empty list), and a non-200 status
skips the loop, also yielding the empty list. -/
def get_comments_for_item (outcome : HttpOutcome (List RawComment)) : List CommentR :=
  match outcome with
  | .exc => []
  | .resp status body => if status = 200 then body.map reduceComment else []

/-- A person-valued work-item field, which the remote API may deliver as
a structured identity object, as a plain string, or not at all. -/
inductive FieldPerson where
  | obj : Option String → FieldPerson
  | strv : String → FieldPerson
  | absent : FieldPerson
deriving DecidableEq

/-- The normalisation applied to `System.CreatedBy` / `System.AssignedTo`
/ `System.ChangedBy` (lines 199-201): a dict is replaced by its
`displayName`, a plain value is kept, an absent field stays absent. -/
def normPerson : FieldPerson → Option String
  | .obj d => d
  | .strv s => some s
  | .absent => none

/-- The `fields` dict of one raw work item from the detail response. -/
structure RawFields where
  title : Option String
  state : Option String
  workItemType : Option String
  assignedTo : FieldPerson
  createdBy : FieldPerson
  changedBy : FieldPerson
  createdDate : Option String
  changedDate : Option String
  description : Option String
  tags : Option String
  iterationPath : Option String
  commentCount : Option Nat
deriving DecidableEq

/-- One raw work item from the detail response `value` array. -/
structure RawItem where
  id : Nat
  fields : RawFields
deriving DecidableEq

/-- The work-item record assembled by the query engine (lines 206-222). -/
structure WorkItemR where
  id : Nat
  title : String
  state : String
  type : String
  assigned_to : Option String
  created_by : Option String
  created_date : Option String
  changed_date : Option String
  changed_by : Option String
  description : String
  tags : Option String
  iteration_path : Option String
  comments_count : Nat
  comments : Option (List CommentR)
  web_url : String
deriving DecidableEq

/-- The query-result envelope (`SprintWorkItemsResponse`). -/
structure Envelope where
  sprint : String
  total_count : Nat
  created_by_me : Nat
  assigned_to_me : Nat
  work_items : List WorkItemR
deriving DecidableEq

/-- Fuel-indexed core of the batching loop
`for i in range(0, len(work_item_ids), batch_size)` with
`batch_size = 200` (lines 160-164): successive slices
`ids[i:i+200]`.  Each step consumes at least one element, so fuel equal
to the list length always suffices. -/
def batchesGo : Nat → List Nat → List (List Nat)
  | _, [] => []
  | 0, _ => []
  | fuel + 1, l => l.take 200 :: batchesGo fuel (l.drop 200)

/-- The sequence of id batches the engine fetches: slices of at most 200
ids, in order. -/
def batches200 (ids : List Nat) : List (List Nat) :=
  batchesGo ids.length ids

/-- The sequential detail-fetch loop (lines 163-180).  For each batch a
GET is issued; a raised exception escapes to the outer handler (modelled
as `none`, together with the calls made so far), a 200 response has its
`value` array appended, and any other status is silently skipped. -/
def fetchBatches (detail : List Nat → HttpOutcome (List RawItem)) :
    List (List Nat) → Option (List RawItem) × List (List Nat)
  | [] => (some [], [])
  | b :: rest =>
    match detail b with
    | .exc => (none, [b])
    | .resp status v =>
      let r := fetchBatches detail rest
      ((r.1).map (fun items => (if status = 200 then v else []) ++ items), b :: r.2)

/-- The per-item assembly step of the engine loop (lines 187-222),
returning the built record together with the comment-fetch calls it
performed.  Comments are fetched only when the reported
`System.CommentCount` (defaulting to 0) is positive; the stored
`comments` field is `None` when the fetched list is empty. -/
def processItem (org project : String) (co : Nat → HttpOutcome (List RawComment))
    (item : RawItem) : WorkItemR × List RemoteCall :=
  let fields := item.fields
  let web_url := "https://dev.azure.com/" ++ org ++ "/" ++ project ++
    "/_workitems/edit/" ++ toString item.id
  let comments_count := fields.commentCount.getD 0
  let comments := if comments_count > 0 then get_comments_for_item (co item.id) else []
  let ccalls := if comments_count > 0 then [RemoteCall.commentCall item.id] else []
  (⟨item.id,
    fields.title.getD "N/A",
    fields.state.getD "N/A",
    fields.workItemType.getD "N/A",
    normPerson fields.assignedTo,
    normPerson fields.createdBy,
    fields.createdDate,
    fields.changedDate,
    normPerson fields.changedBy,
    strip_html (some (fields.description.getD "")),
    fields.tags,
    fields.iterationPath,
    comments_count,
    if comments.isEmpty then none else some comments,
    web_url⟩, ccalls)

/-- The three remote interactions the query engine performs, abstracted
as oracles: the WIQL query response (already projected to the list of
matched ids), the detail response per id batch, and the comments
response per item id. -/
structure EngineOracle where
  wiql : HttpOutcome (List Nat)
  detail : List Nat → HttpOutcome (List RawItem)
  comments : Nat → HttpOutcome (List RawComment)

/-- The work-item query engine `get_work_items_by_sprint` (lines
93-239).  Returns the HTTP-level result (an `Envelope`, or an error
status as raised via `HTTPException`) together with the ordered trace of
outbound remote calls.  Branches, in source order: missing
configuration raises 500; empty PAT raises 401; a raised exception from
the WIQL call maps to 500; a non-200 WIQL status is forwarded; an empty
id list short-circuits to the empty envelope; detail batches are fetched
sequentially (an exception mapping to 500 via the outer handler); and
the envelope is assembled with counters that are initialised to zero and
never incremented. -/
def get_work_items_by_sprint (cfg : Config) (sprint pat : String) (o : EngineOracle) :
    Except Nat Envelope × List RemoteCall :=
  if configOk cfg = false then (.error 500, [])
  else if pat = "" then (.error 401, [])
  else
    match o.wiql with
    | .exc => (.error 500, [.wiqlCall pat])
    | .resp status ids =>
      if status ≠ 200 then (.error status, [.wiqlCall pat])
      else if ids.isEmpty then
        (.ok ⟨sprint, 0, 0, 0, []⟩, [.wiqlCall pat])
      else
        match fetchBatches o.detail (batches200 ids) with
        | (none, done) => (.error 500, .wiqlCall pat :: done.map RemoteCall.detailCall)
        | (some all_items_data, done) =>
          let created_by_me_count := 0
          let assigned_to_me_count := 0
          let processed := all_items_data.map
            (processItem (cfg.org.getD "") (cfg.project.getD "") o.comments)
          let work_items := processed.map Prod.fst
          let ccalls := (processed.map Prod.snd).flatten
          (.ok ⟨sprint, work_items.length, created_by_me_count, assigned_to_me_count,
             work_items⟩,
           .wiqlCall pat :: (done.map RemoteCall.detailCall ++ ccalls))

/-- The `/work-items` endpoint handler (lines 326-350): a missing
Authorization header is rejected with 401 before anything else; then the
PAT is extracted and the engine runs. -/
def get_work_items (cfg : Config) (sprint : String) (authorization : Option String)
    (o : EngineOracle) : Except Nat Envelope × List RemoteCall :=
  match authorization with
  | none => (.error 401, [])
  | some a => get_work_items_by_sprint cfg sprint (extractPat a) o

/-- One reduced item of the summary endpoint: keys that the Python code
conditionally omits are modelled as `Option` fields (`none` = key
absent). -/
structure SummaryItem where
  title : String
  description : Option String
  comments : Option (List String)
deriving DecidableEq

/-- The reduced response of `/work-items/summary`. -/
structure SummaryResponse where
  sprint : String
  total_count : Nat
  items : List SummaryItem
deriving DecidableEq

/-- The per-item projection of the summary loop (lines 382-395): always
the title; the description only when it is truthy and truthy after
`strip()`; the comments only when the comment list is truthy and
non-empty, reduced to the truthy comment texts. -/
def summarizeItem (item : WorkItemR) : SummaryItem :=
  { title := item.title
    description :=
      if item.description ≠ "" ∧ String.mk (trimL item.description.toList) ≠ "" then
        some item.description
      else none
    comments :=
      match item.comments with
      | some cs =>
        if cs ≠ [] ∧ cs.length > 0 then
          some ((cs.filter (fun c => c.text ≠ "")).map (fun c => c.text))
        else none
      | none => none }

/-- The pure reshaping done by `/work-items/summary` on a full envelope
(lines 380-401): project every work item and repackage with the same
sprint name and total count. -/
def summarize (result : Envelope) : SummaryResponse :=
  let summary_items := result.work_items.foldl (fun acc item => acc ++ [summarizeItem item]) []
  ⟨result.sprint, result.total_count, summary_items⟩

/-- The `/work-items/summary` endpoint handler (lines 353-401): missing
header rejected with 401, then the engine runs and, on success, its
envelope is reduced. -/
def get_work_items_summary (cfg : Config) (sprint : String) (authorization : Option String)
    (o : EngineOracle) : Except Nat SummaryResponse × List RemoteCall :=
  match authorization with
  | none => (.error 401, [])
  | some a =>
    match get_work_items_by_sprint cfg sprint (extractPat a) o with
    | (.error e, calls) => (.error e, calls)
    | (.ok result, calls) => (.ok (summarize result), calls)

/-- The `attributes` dict of a raw iteration. -/
structure RawAttributes where
  startDate : Option String
  finishDate : Option String
  timeFrame : Option String
deriving DecidableEq

/-- One raw iteration from the team-iterations response `value` array.
`attributes` may be absent (`iteration.get('attributes', \x7b\x7d)`
then defaults to the empty dict, whose lookups all yield `None`). -/
structure RawIteration where
  name : Option String
  path : Option String
  attributes : Option RawAttributes
deriving DecidableEq

/-- One sprint record built by `list_sprints` (lines 301-309). -/
structure Sprint where
  name : Option String
  path : Option String
  start_date : Option String
  finish_date : Option String
  time_frame : Option String
deriving DecidableEq

/-- The per-iteration mapping of `list_sprints`. -/
def mapIteration (it : RawIteration) : Sprint :=
  let attributes := it.attributes.getD ⟨none, none, none⟩
  ⟨it.name, it.path, attributes.startDate, attributes.finishDate, attributes.timeFrame⟩

/-- The sort key of line 313:
`order.get(x.get('time_frame', 'past'), 3)` with
`order = \x7bcurrent: 0, future: 1, past: 2\x7d`.  The `time_frame` key
is always present in the dicts built just above (possibly with value
`None`), so the `'past'` default of the inner `get` is dead: a `None`
time frame falls through to the outer default 3, as does any
unrecognised string. -/
def sprintKey : Option String → Nat
  | none => 3
  | some s =>
    if s = "current" then 0
    else if s = "future" then 1
    else if s = "past" then 2
    else 3

/-- The comparison underlying `sprints.sort(key=...)`. -/
def sprintLE (a b : Sprint) : Prop :=
  sprintKey a.time_frame ≤ sprintKey b.time_frame

instance : DecidableRel sprintLE :=
  fun a b => Nat.decLe (sprintKey a.time_frame) (sprintKey b.time_frame)

instance : IsTotal Sprint sprintLE :=
  ⟨fun a b => Nat.le_total (sprintKey a.time_frame) (sprintKey b.time_frame)⟩

instance : IsTrans Sprint sprintLE :=
  ⟨fun _ _ _ hab hbc => Nat.le_trans hab hbc⟩

/-- `sprints.sort(key=lambda x: order.get(x.get('time_frame', 'past'), 3))`
(line 313).  Python `list.sort` is a stable sort by the key; a stable
sort by a total preorder is unique, and `List.insertionSort` with the
non-strict key comparison is stable (proved below), so it is the same
function. -/
def sortSprints (sprints : List Sprint) : List Sprint :=
  List.insertionSort sprintLE sprints

/-- The `/sprints` response. -/
structure SprintsResponse where
  total : Nat
  sprints : List Sprint
deriving DecidableEq

/-- The `/sprints` endpoint handler `list_sprints` (lines 264-323).
Branches in source order: missing configuration raises 500 (checked
before the header); missing Authorization header raises 401; then the
PAT is extracted and the iterations call issued — a raised exception
maps to 500, a non-200 status is forwarded, and otherwise the iterations
are mapped and stably sorted by temporal phase. -/
def list_sprints (cfg : Config) (authorization : Option String)
    (iterationsResp : HttpOutcome (List RawIteration)) :
    Except Nat SprintsResponse × List RemoteCall :=
  if configOk cfg = false then (.error 500, [])
  else
    match authorization with
    | none => (.error 401, [])
    | some a =>
      let pat := extractPat a
      match iterationsResp with
      | .exc => (.error 500, [.iterationsCall pat])
      | .resp status iterations =>
        if status ≠ 200 then (.error status, [.iterationsCall pat])
        else
          let sprints := sortSprints (iterations.map mapIteration)
          (.ok ⟨sprints.length, sprints⟩, [.iterationsCall pat])

/-- The items a single detail batch contributes to `all_items_data`: the
`value` array on a 200 response, nothing on any other status, undefined
(empty here; the request aborts) on a raised exception. -/
def detailValue (detail : List Nat → HttpOutcome (List RawItem)) (b : List Nat) :
    List RawItem :=
  match detail b with
  | .exc => []
  | .resp status v => if status = 200 then v else []

/-- Projection of a call trace to the id batches of its detail-fetch
calls, in order. -/
def detailCallsOf (calls : List RemoteCall) : List (List Nat) :=
  calls.filterMap (fun c => match c with
    | .detailCall b => some b
    | _ => none)

/-- The error status of an HTTP-level result, if any. -/
def errOf (r : Except Nat Envelope) : Option Nat :=
  match r with
  | .error e => some e
  | .ok _ => none

/-- The output of `stripGo` is a subsequence of its input: the scanner
only ever keeps or drops input characters. -/
theorem stripGo_sublist : ∀ (cs : List Char) (b : Bool), List.Sublist (stripGo b cs) cs := by
  intro cs
  induction cs with
  | nil => intro b; cases b <;> simp [stripGo]
  | cons c cs ih =>
    intro b
    cases b with
    | true =>
      by_cases h : c = '>'
      · simpa [stripGo, h] using List.Sublist.cons c (ih false)
      · simpa [stripGo, h] using List.Sublist.cons c (ih true)
    | false =>
      by_cases h : (decide (c = '<') && closesTag cs) = true
      · simpa [stripGo, h] using List.Sublist.cons c (ih true)
      · simpa [stripGo, h] using List.Sublist.cons₂ c (ih false)

/-- A subsequence of a list without a given character also lacks it. -/
theorem contains_false_of_sublist {l₁ l₂ : List Char} {a : Char}
    (hs : List.Sublist l₁ l₂) (h : l₂.contains a = false) : l₁.contains a = false := by
  simp at h ⊢
  intro hm
  exact h (hs.subset hm)

/-- If no match of `<[^>]+>` begins at the front of `cs`, none begins at
the front of its stripped form either. -/
theorem closesTag_stripGo_false (cs : List Char) (h : closesTag cs = false) :
    closesTag (stripGo false cs) = false := by
  cases cs with
  | nil => rfl
  | cons d ds =>
    by_cases hd : d = '>'
    · rw [show stripGo false (d :: ds) = d :: stripGo false ds by
            simp [stripGo, hd]]
      simp [closesTag, hd]
    · have hds : ds.contains '>' = false := by
        rw [closesTag] at h
        simpa [hd] using h
      have hall : (d :: ds).contains '>' = false := by
        simp at hds ⊢
        exact ⟨Ne.symm hd, hds⟩
      have hsub : (stripGo false (d :: ds)).contains '>' = false :=
        contains_false_of_sublist (stripGo_sublist (d :: ds) false) hall
      cases hsg : stripGo false (d :: ds) with
      | nil => rfl
      | cons e es =>
        rw [hsg] at hsub
        have hes : es.contains '>' = false := by
          simp at hsub ⊢
          exact hsub.2
        rw [closesTag, hes, Bool.and_false]

/-- After tag removal, no `<[^>]+>` match remains, in either scanner
mode. -/
theorem hasTag_stripGo (cs : List Char) :
    hasTag (stripGo false cs) = false ∧ hasTag (stripGo true cs) = false := by
  induction cs with
  | nil => exact ⟨rfl, rfl⟩
  | cons c cs ih =>
    obtain ⟨ihf, iht⟩ := ih
    constructor
    · by_cases h : (decide (c = '<') && closesTag cs) = true
      · simpa [stripGo, h] using iht
      · rw [show stripGo false (c :: cs) = c :: stripGo false cs by simp [stripGo, h]]
        rw [hasTag, ihf, Bool.or_false]
        rcases Bool.and_eq_false_iff.mp (Bool.eq_false_iff.mpr h) with hc | hcl
        · simp only [decide_eq_false_iff_not] at hc
          simp [hc]
        · rw [closesTag_stripGo_false cs hcl, Bool.and_false]
    · by_cases hc : c = '>'
      · simpa [stripGo, hc] using ihf
      · simpa [stripGo, hc] using iht

/-- A front match survives appending on the right. -/
theorem closesTag_append (l b : List Char) (h : closesTag l = true) :
    closesTag (l ++ b) = true := by
  cases l with
  | nil => cases h
  | cons d ds =>
    rw [List.cons_append]
    rw [closesTag, Bool.and_eq_true] at h
    rw [closesTag, Bool.and_eq_true]
    refine ⟨h.1, ?_⟩
    have h2 := h.2
    simp at h2 ⊢
    exact Or.inl h2

/-- A tag match survives appending on the right. -/
theorem hasTag_append_right (l b : List Char) (h : hasTag l = true) :
    hasTag (l ++ b) = true := by
  induction l with
  | nil => cases h
  | cons c cs ih =>
    rw [List.cons_append]
    rw [hasTag, Bool.or_eq_true] at h
    rw [hasTag, Bool.or_eq_true]
    rcases h with h | h
    · rw [Bool.and_eq_true] at h
      exact Or.inl (by rw [Bool.and_eq_true]; exact ⟨h.1, closesTag_append cs b h.2⟩)
    · exact Or.inr (ih h)

/-- A tag match survives prepending on the left. -/
theorem hasTag_append_left (a l : List Char) (h : hasTag l = true) :
    hasTag (a ++ l) = true := by
  induction a with
  | nil => exact h
  | cons c cs ih =>
    rw [List.cons_append, hasTag, Bool.or_eq_true]
    exact Or.inr ih

/-- A tag match inside the trimmed list was already present before
trimming: `trimL cs` is an infix of `cs`. -/
theorem hasTag_trimL (cs : List Char) (h : hasTag (trimL cs) = true) :
    hasTag cs = true := by
  have h1 : cs.takeWhile Char.isWhitespace ++ cs.dropWhile Char.isWhitespace = cs :=
    List.takeWhile_append_dropWhile _ _
  have h2 : (cs.dropWhile Char.isWhitespace).reverse.takeWhile Char.isWhitespace ++
      (cs.dropWhile Char.isWhitespace).reverse.dropWhile Char.isWhitespace =
      (cs.dropWhile Char.isWhitespace).reverse :=
    List.takeWhile_append_dropWhile _ _
  have h3 : cs.dropWhile Char.isWhitespace =
      trimL cs ++ ((cs.dropWhile Char.isWhitespace).reverse.takeWhile Char.isWhitespace).reverse := by
    rw [trimL]
    conv_lhs => rw [← List.reverse_reverse (cs.dropWhile Char.isWhitespace), ← h2]
    rw [List.reverse_append]
  rw [← h1, h3]
  exact hasTag_append_left _ _ (hasTag_append_right _ _ h)

/-- Claim C5: `strip_html` is a pure total function; empty or absent
input yields the empty string; an input containing a matched
angle-bracket tag sequence is mapped to an output containing none (all
`<...>` markup removed, surrounding whitespace trimmed); in particular
`strip_html "<b>hi</b>  " = "hi"`. -/
theorem strip_html_spec :
    (strip_html none = "" ∧ strip_html (some "") = "") ∧
    (∀ s : String, hasTag s.toList = true → hasTag (strip_html (some s)).toList = false) ∧
    strip_html (some "<b>hi</b>  ") = "hi" := by
  refine ⟨⟨rfl, rfl⟩, ?_, by decide⟩
  intro s hs
  by_cases hempty : s = ""
  · subst hempty
    cases hs
  · rw [strip_html]
    simp only [hempty, if_false]
    have hmk : (String.mk (trimL (stripTagsL s.toList))).toList = trimL (stripTagsL s.toList) := rfl
    rw [hmk]
    cases hb : hasTag (trimL (stripTagsL s.toList)) with
    | false => rfl
    | true =>
      exfalso
      have hmatch := hasTag_trimL _ hb
      rw [stripTagsL] at hmatch
      rw [(hasTag_stripGo s.toList).1] at hmatch
      cases hmatch

/-- Witness for C5: the tag-bearing example input. -/
theorem strip_html_spec_witness :
    hasTag ("<b>hi</b>  ").toList = true ∧
    hasTag (strip_html (some "<b>hi</b>  ")).toList = false :=
  ⟨by decide, strip_html_spec.2.1 "<b>hi</b>  " (by decide)⟩

/-- Inserting an element with key `k` puts it in front of the equal-key
elements already present: all skipped elements have strictly smaller
keys. -/
theorem filter_orderedInsert_eq (a : Sprint) (l : List Sprint) (k : Nat)
    (ha : sprintKey a.time_frame = k) :
    (List.orderedInsert sprintLE a l).filter (fun x => sprintKey x.time_frame == k) =
      a :: l.filter (fun x => sprintKey x.time_frame == k) := by
  induction l with
  | nil => simp [List.orderedInsert, ha]
  | cons b l ih =>
    by_cases h : sprintLE a b
    · rw [List.orderedInsert_of_le sprintLE l h]
      simp [List.filter_cons, ha]
    · have hb : ¬(sprintKey b.time_frame = k) := by
        rw [← ha]
        unfold sprintLE at h
        omega
      rw [show List.orderedInsert sprintLE a (b :: l) = b :: List.orderedInsert sprintLE a l by
            simp [List.orderedInsert, h]]
      simp only [List.filter_cons]
      have hbeq : (sprintKey b.time_frame == k) = false := by simp [hb]
      rw [hbeq]
      simpa using ih

/-- Inserting an element with a different key leaves the key-`k`
subsequence unchanged. -/
theorem filter_orderedInsert_ne (a : Sprint) (l : List Sprint) (k : Nat)
    (ha : ¬(sprintKey a.time_frame = k)) :
    (List.orderedInsert sprintLE a l).filter (fun x => sprintKey x.time_frame == k) =
      l.filter (fun x => sprintKey x.time_frame == k) := by
  induction l with
  | nil => simp [List.orderedInsert, ha]
  | cons b l ih =>
    by_cases h : sprintLE a b
    · rw [List.orderedInsert_of_le sprintLE l h]
      simp [List.filter_cons, ha]
    · rw [show List.orderedInsert sprintLE a (b :: l) = b :: List.orderedInsert sprintLE a l by
            simp [List.orderedInsert, h]]
      simp only [List.filter_cons]
      rw [ih]

/-- Stability of the sprint sort: for every key value, the subsequence
of elements with that key is exactly the input subsequence, in input
order. -/
theorem sortSprints_filter (l : List Sprint) (k : Nat) :
    (sortSprints l).filter (fun x => sprintKey x.time_frame == k) =
      l.filter (fun x => sprintKey x.time_frame == k) := by
  induction l with
  | nil => rfl
  | cons a l ih =>
    unfold sortSprints at ih ⊢
    rw [show List.insertionSort sprintLE (a :: l) =
          List.orderedInsert sprintLE a (List.insertionSort sprintLE l) from rfl]
    by_cases ha : sprintKey a.time_frame = k
    · rw [filter_orderedInsert_eq a _ k ha, ih, List.filter_cons]
      simp [ha]
    · rw [filter_orderedInsert_ne a _ k ha, ih, List.filter_cons]
      simp [ha]

/-- Claim C2: the sprint lister returns the fetched iterations stably
sorted ascending by the fixed phase rank (current 0, future 1, past 2,
anything else 3): the output is sorted and a permutation of the input,
equal-rank items keep their relative input order, and the concrete
four-sprint example with phases past, current, future, current comes out
as current, current, future, past with the two current sprints in input
order. -/
theorem list_sprints_sorted_stable :
    (sprintKey (some "current") = 0 ∧ sprintKey (some "future") = 1 ∧
     sprintKey (some "past") = 2 ∧ sprintKey none = 3 ∧
     (∀ s : String, s ≠ "current" → s ≠ "future" → s ≠ "past" → sprintKey (some s) = 3)) ∧
    (∀ l : List Sprint,
      List.Sorted sprintLE (sortSprints l) ∧
      List.Perm (sortSprints l) l ∧
      (∀ k : Nat, (sortSprints l).filter (fun x => sprintKey x.time_frame == k) =
        l.filter (fun x => sprintKey x.time_frame == k))) ∧
    (∀ (cfg : Config) (a : String) (iters : List RawIteration), configOk cfg = true →
      list_sprints cfg (some a) (.resp 200 iters) =
        (.ok ⟨(sortSprints (iters.map mapIteration)).length, sortSprints (iters.map mapIteration)⟩,
         [.iterationsCall (extractPat a)])) ∧
    (sortSprints
        [⟨some "s0", none, none, none, some "past"⟩,
         ⟨some "s1", none, none, none, some "current"⟩,
         ⟨some "s2", none, none, none, some "future"⟩,
         ⟨some "s3", none, none, none, some "current"⟩] =
       [⟨some "s1", none, none, none, some "current"⟩,
        ⟨some "s3", none, none, none, some "current"⟩,
        ⟨some "s2", none, none, none, some "future"⟩,
        ⟨some "s0", none, none, none, some "past"⟩]) := by
  refine ⟨⟨rfl, rfl, rfl, rfl, ?_⟩, ?_, ?_, by decide⟩
  · intro s h1 h2 h3
    simp [sprintKey, h1, h2, h3]
  · intro l
    exact ⟨List.sorted_insertionSort sprintLE l, List.perm_insertionSort sprintLE l,
      fun k => sortSprints_filter l k⟩
  · intro cfg a iters h
    simp [list_sprints, h]

/-- Witness for C2: an unrecognised phase string ranks 3, and a concrete
successful listing returns the sorted sprints. -/
theorem list_sprints_sorted_stable_witness :
    sprintKey (some "released") = 3 ∧
    list_sprints ⟨some "o", some "p"⟩ (some "tok") (.resp 200 []) =
      (.ok ⟨(sortSprints (([] : List RawIteration).map mapIteration)).length,
            sortSprints (([] : List RawIteration).map mapIteration)⟩,
       [.iterationsCall (extractPat "tok")]) :=
  ⟨list_sprints_sorted_stable.1.2.2.2.2 "released" (by decide) (by decide) (by decide),
   list_sprints_sorted_stable.2.2.1 ⟨some "o", some "p"⟩ "tok" [] (by decide)⟩

/-- The summary loop appends one reduced item per work item: as a fold
it is the map of the per-item projection. -/
theorem foldl_append_summarize (l : List WorkItemR) (acc : List SummaryItem) :
    l.foldl (fun acc item => acc ++ [summarizeItem item]) acc = acc ++ l.map summarizeItem := by
  induction l generalizing acc with
  | nil => simp
  | cons a l ih => simp [List.foldl_cons, ih]

/-- Claim C3: the summary reducer returns the sprint name, the total
count and the per-item projections; each projection always carries the
title, carries a description exactly when the description is non-empty
after trimming (and then carries it verbatim), carries comments only
when the item has at least one comment and then carries the list of its
non-empty comment texts, and an item with empty description and no
comments reduces to the bare title. -/
theorem summary_reduction_spec :
    (∀ e : Envelope, summarize e =
      ⟨e.sprint, e.total_count, e.work_items.map summarizeItem⟩) ∧
    (∀ it : WorkItemR,
      (summarizeItem it).title = it.title ∧
      ((summarizeItem it).description ≠ none ↔ trimL it.description.toList ≠ []) ∧
      (∀ d : String, (summarizeItem it).description = some d → d = it.description) ∧
      ((summarizeItem it).comments ≠ none → ∃ cs, it.comments = some cs ∧ cs ≠ []) ∧
      (∀ cs : List CommentR, it.comments = some cs → cs ≠ [] →
        (summarizeItem it).comments =
          some ((cs.filter (fun c => c.text ≠ "")).map (fun c => c.text))) ∧
      (it.description = "" → it.comments = none →
        summarizeItem it = ⟨it.title, none, none⟩)) := by
  constructor
  · intro e
    rw [summarize]
    rw [foldl_append_summarize]
    rfl
  · intro it
    refine ⟨rfl, ?_, ?_, ?_, ?_, ?_⟩
    · rw [summarizeItem]
      by_cases h : it.description ≠ "" ∧ String.mk (trimL it.description.toList) ≠ ""
      · simp only [if_pos h]
        constructor
        · intro _ htrim
          exact h.2 (by rw [htrim])
        · intro _
          simp
      · simp only [if_neg h]
        push_neg at h
        constructor
        · intro hne
          exact absurd rfl hne
        · intro htrim
          exfalso
          by_cases hd : it.description = ""
          · apply htrim
            rw [hd]
            rfl
          · have := h hd
            apply htrim
            have : (String.mk (trimL it.description.toList)).data = ("" : String).data :=
              congrArg String.data this
            simpa using this
    · intro d hd
      rw [summarizeItem] at hd
      by_cases h : it.description ≠ "" ∧ String.mk (trimL it.description.toList) ≠ ""
      · simp only [if_pos h] at hd
        exact (Option.some_inj.mp hd).symm
      · simp only [if_neg h] at hd
        cases hd
    · intro hne
      rw [summarizeItem] at hne
      cases hc : it.comments with
      | none => rw [hc] at hne; simp at hne
      | some cs =>
        rw [hc] at hne
        by_cases h : cs ≠ [] ∧ cs.length > 0
        · exact ⟨cs, rfl, h.1⟩
        · simp only [if_neg h] at hne
          simp at hne
    · intro cs hc hcs
      rw [summarizeItem, hc]
      have h : cs ≠ [] ∧ cs.length > 0 :=
        ⟨hcs, List.length_pos.mpr hcs⟩
      simp only [if_pos h]
    · intro hd hc
      rw [summarizeItem, hc, hd]
      simp

/-- Witness for C3: a concrete item with empty description and no
comments reduces to the bare title, and a concrete item with a comment
keeps the non-empty comment texts. -/
theorem summary_reduction_spec_witness :
    summarizeItem ⟨1, "T", "New", "Task", none, none, none, none, none,
        "", none, none, 0, none, "u"⟩ =
      ⟨"T", none, none⟩ ∧
    (summarizeItem ⟨2, "U", "New", "Task", none, none, none, none, none,
        "", none, none, 1, some [⟨some 9, "hello", none, none⟩], "u"⟩).comments =
      some [("hello" : String)] :=
  ⟨(summary_reduction_spec.2 _).2.2.2.2.2 rfl rfl,
   (summary_reduction_spec.2 _).2.2.2.2.1 [⟨some 9, "hello", none, none⟩] rfl (by decide)⟩

/-- The number of id batches is the ceiling of N/200. -/
theorem batchesGo_length : ∀ (fuel : Nat) (l : List Nat), l.length ≤ fuel → l ≠ [] →
    (batchesGo fuel l).length = (l.length + 199) / 200 := by
  intro fuel
  induction fuel with
  | zero =>
    intro l hl hne
    exact absurd (List.eq_nil_of_length_eq_zero (Nat.le_zero.mp hl)) hne
  | succ fuel ih =>
    intro l hl hne
    cases l with
    | nil => exact absurd rfl hne
    | cons x xs =>
      rw [show batchesGo (fuel + 1) (x :: xs) =
            (x :: xs).take 200 :: batchesGo fuel ((x :: xs).drop 200) from rfl]
      rw [List.length_cons]
      by_cases hlen : (x :: xs).length ≤ 200
      · have hdrop : (x :: xs).drop 200 = [] := List.drop_eq_nil_of_le hlen
        rw [hdrop]
        rw [show batchesGo fuel ([] : List Nat) = [] by cases fuel <;> rfl]
        have h1 : 1 ≤ (x :: xs).length := by simp
        simp only [List.length_nil]
        omega
      · push_neg at hlen
        have hdlen : ((x :: xs).drop 200).length = (x :: xs).length - 200 :=
          List.length_drop 200 (x :: xs)
        have ihl : ((x :: xs).drop 200).length ≤ fuel := by
          rw [hdlen]
          simp only [List.length_cons] at hl ⊢
          omega
        have ihne : (x :: xs).drop 200 ≠ [] := by
          intro hnil
          rw [hnil] at hdlen
          simp only [List.length_nil] at hdlen
          omega
        rw [ih _ ihl ihne, hdlen]
        omega

/-- Every batch holds at most 200 ids. -/
theorem batchesGo_mem : ∀ (fuel : Nat) (l b : List Nat), b ∈ batchesGo fuel l →
    b.length ≤ 200 := by
  intro fuel
  induction fuel with
  | zero =>
    intro l b hb
    cases l <;> simp [batchesGo] at hb
  | succ fuel ih =>
    intro l b hb
    cases l with
    | nil => simp [batchesGo] at hb
    | cons x xs =>
      rw [show batchesGo (fuel + 1) (x :: xs) =
            (x :: xs).take 200 :: batchesGo fuel ((x :: xs).drop 200) from rfl] at hb
      rcases List.mem_cons.mp hb with h | h
      · subst h
        exact List.length_take_le 200 (x :: xs)
      · exact ih _ _ h

/-- Concatenating the batches gives back the id list: the batches
partition the matched ids in order. -/
theorem batchesGo_flatten : ∀ (fuel : Nat) (l : List Nat), l.length ≤ fuel →
    (batchesGo fuel l).flatten = l := by
  intro fuel
  induction fuel with
  | zero =>
    intro l hl
    rw [List.eq_nil_of_length_eq_zero (Nat.le_zero.mp hl)]
    rfl
  | succ fuel ih =>
    intro l hl
    cases l with
    | nil => rfl
    | cons x xs =>
      rw [show batchesGo (fuel + 1) (x :: xs) =
            (x :: xs).take 200 :: batchesGo fuel ((x :: xs).drop 200) from rfl]
      rw [List.flatten_cons]
      have ihl : ((x :: xs).drop 200).length ≤ fuel := by
        rw [List.length_drop]
        simp only [List.length_cons] at hl ⊢
        omega
      rw [ih _ ihl, List.take_append_drop]

/-- When no batch raises, the fetch loop visits every batch in order and
collects exactly the 200-status bodies. -/
theorem fetchBatches_ok (detail : List Nat → HttpOutcome (List RawItem)) :
    ∀ bs : List (List Nat), (∀ b ∈ bs, detail b ≠ .exc) →
      fetchBatches detail bs = (some ((bs.map (detailValue detail)).flatten), bs) := by
  intro bs
  induction bs with
  | nil => intro _; rfl
  | cons b rest ih =>
    intro h
    have hb := h b (List.mem_cons_self b rest)
    cases hdb : detail b with
    | exc => exact absurd hdb hb
    | resp st v =>
      simp only [fetchBatches, hdb]
      rw [ih (fun x hx => h x (List.mem_cons_of_mem b hx))]
      simp [detailValue, hdb]

/-- If some batch raises, the fetch loop aborts: no item list is
produced (and the outer handler turns this into a 500). -/
theorem fetchBatches_none (detail : List Nat → HttpOutcome (List RawItem)) :
    ∀ bs : List (List Nat), (∃ b ∈ bs, detail b = .exc) →
      (fetchBatches detail bs).1 = none := by
  intro bs
  induction bs with
  | nil => intro h; simp at h
  | cons b rest ih =>
    intro h
    cases hdb : detail b with
    | exc => simp [fetchBatches, hdb]
    | resp st v =>
      rcases h with ⟨b', hb', hexc⟩
      rcases List.mem_cons.mp hb' with rfl | hmem
      · rw [hdb] at hexc; cases hexc
      · simp only [fetchBatches, hdb]
        rw [show (fetchBatches detail rest).1 = none from ih ⟨b', hmem, hexc⟩]
        rfl

/-- The comment-fetch calls recorded while assembling a list of items
are exactly one call per item with positive reported comment count, in
item order. -/
theorem ccalls_eq (org proj : String) (co : Nat → HttpOutcome (List RawComment)) :
    ∀ l : List RawItem,
      ((l.map (processItem org proj co)).map Prod.snd).flatten =
        (l.filter (fun it => 0 < it.fields.commentCount.getD 0)).map
          (fun it => RemoteCall.commentCall it.id) := by
  intro l
  induction l with
  | nil => rfl
  | cons it l ih =>
    simp only [List.map_cons, List.flatten_cons, List.filter_cons]
    by_cases h : 0 < it.fields.commentCount.getD 0
    · have hsnd : (processItem org proj co it).2 = [RemoteCall.commentCall it.id] := by
        simp [processItem, h]
      rw [hsnd, ih]
      simp [h]
    · have hsnd : (processItem org proj co it).2 = [] := by
        simp [processItem, h]
      rw [hsnd, ih]
      simp [h]

/-- The detail-batch projection distributes over trace concatenation. -/
theorem detailCallsOf_append (xs ys : List RemoteCall) :
    detailCallsOf (xs ++ ys) = detailCallsOf xs ++ detailCallsOf ys := by
  simp [detailCallsOf, List.filterMap_append]

/-- The detail-batch projection recovers the batches from their calls. -/
theorem detailCallsOf_map_detail : ∀ done : List (List Nat),
    detailCallsOf (done.map RemoteCall.detailCall) = done := by
  intro done
  induction done with
  | nil => rfl
  | cons b rest ih =>
    rw [List.map_cons]
    rw [show detailCallsOf (RemoteCall.detailCall b :: rest.map RemoteCall.detailCall) =
          b :: detailCallsOf (rest.map RemoteCall.detailCall) from rfl]
    rw [ih]

/-- Comment calls contribute no detail batches. -/
theorem detailCallsOf_map_comment : ∀ items : List RawItem,
    detailCallsOf (items.map (fun it => RemoteCall.commentCall it.id)) = [] := by
  intro items
  induction items with
  | nil => rfl
  | cons it rest ih =>
    rw [List.map_cons]
    rw [show detailCallsOf (RemoteCall.commentCall it.id ::
          rest.map (fun it => RemoteCall.commentCall it.id)) =
          detailCallsOf (rest.map (fun it => RemoteCall.commentCall it.id)) from rfl]
    exact ih

/-- Extracting the detail batches from an engine success trace yields
exactly the id batches, in order. -/
theorem detailCallsOf_trace (pat : String) (done : List (List Nat)) (items : List RawItem) :
    detailCallsOf (RemoteCall.wiqlCall pat ::
      (done.map RemoteCall.detailCall ++
       items.map (fun it => RemoteCall.commentCall it.id))) = done := by
  rw [show detailCallsOf (RemoteCall.wiqlCall pat ::
        (done.map RemoteCall.detailCall ++
         items.map (fun it => RemoteCall.commentCall it.id))) =
        detailCallsOf (done.map RemoteCall.detailCall ++
         items.map (fun it => RemoteCall.commentCall it.id)) from rfl]
  rw [detailCallsOf_append, detailCallsOf_map_detail, detailCallsOf_map_comment,
    List.append_nil]

/-- Unfolding of the engine on the success path: configuration and PAT
present, WIQL 200 with a non-empty id list, and a completed (exception
free) batch fetch. -/
theorem engine_success_eq (cfg : Config) (sprint pat : String) (o : EngineOracle)
    (ids : List Nat) (items : List RawItem) (done : List (List Nat))
    (hc : configOk cfg = true) (hp : pat ≠ "") (hw : o.wiql = .resp 200 ids)
    (hne : ids ≠ [])
    (hfb : fetchBatches o.detail (batches200 ids) = (some items, done)) :
    get_work_items_by_sprint cfg sprint pat o =
      (.ok ⟨sprint,
         ((items.map (processItem (cfg.org.getD "") (cfg.project.getD "") o.comments)).map
            Prod.fst).length, 0, 0,
         (items.map (processItem (cfg.org.getD "") (cfg.project.getD "") o.comments)).map
            Prod.fst⟩,
       RemoteCall.wiqlCall pat ::
         (done.map RemoteCall.detailCall ++
          ((items.map (processItem (cfg.org.getD "") (cfg.project.getD "") o.comments)).map
             Prod.snd).flatten)) := by
  have hie : ids.isEmpty = false := by
    cases ids with
    | nil => exact absurd rfl hne
    | cons x xs => rfl
  rw [get_work_items_by_sprint]
  rw [hc, hw]
  simp only [Bool.true_eq_false, if_false, if_neg hp, hie, hfb]
  rfl

/-- Counterexample to C4 as stated: a detail batch whose call raises an
exception is not silently skipped — the whole request aborts with a 500
error instead of returning an envelope. -/
theorem batch_exception_not_skipped :
    (get_work_items_by_sprint ⟨some "o", some "p"⟩ "S" "tok"
        ⟨.resp 200 [1], fun _ => .exc, fun _ => .exc⟩).1 = .error 500 := rfl

/-- Unfolding of the engine on the empty-result path: a successful WIQL
query matching no ids yields the empty envelope immediately, with no
further remote calls. -/
theorem engine_empty_eq (cfg : Config) (sprint pat : String) (o : EngineOracle)
    (hc : configOk cfg = true) (hp : pat ≠ "") (hw : o.wiql = .resp 200 []) :
    get_work_items_by_sprint cfg sprint pat o =
      (.ok ⟨sprint, 0, 0, 0, []⟩, [.wiqlCall pat]) := by
  rw [get_work_items_by_sprint, hc, hw]
  simp [hp]

/-- Unfolding of the engine when the batch fetch aborts on a raised
exception: the outer handler maps it to a 500 error. -/
theorem engine_fetchfail_eq (cfg : Config) (sprint pat : String) (o : EngineOracle)
    (ids : List Nat) (done : List (List Nat))
    (hc : configOk cfg = true) (hp : pat ≠ "") (hw : o.wiql = .resp 200 ids)
    (hne : ids ≠ [])
    (hfb : fetchBatches o.detail (batches200 ids) = (none, done)) :
    get_work_items_by_sprint cfg sprint pat o =
      (.error 500, RemoteCall.wiqlCall pat :: done.map RemoteCall.detailCall) := by
  have hie : ids.isEmpty = false := by
    cases ids with
    | nil => exact absurd rfl hne
    | cons x xs => rfl
  rw [get_work_items_by_sprint, hc, hw]
  simp only [Bool.true_eq_false, if_false, if_neg hp, hie, hfb]
  rfl

/-- Claim C4 (amended): with configuration, PAT and a successful WIQL
query in place — an empty id list returns the empty envelope with no
detail-fetch call; otherwise the ids are cut into ceil(N/200) batches of
at most 200 ids whose concatenation is the id list; if no detail call
raises, exactly those batches are fetched, any batch answered with a
non-200 status is silently skipped (its items absent, no error), and the
envelope holds the items of the 200-status batches; if some detail call
raises an exception, the whole request aborts with a 500 error. -/
theorem batch_fetch_amended :
    ∀ (cfg : Config) (sprint pat : String) (o : EngineOracle) (ids : List Nat),
      configOk cfg = true → pat ≠ "" → o.wiql = .resp 200 ids →
      ((ids = [] → get_work_items_by_sprint cfg sprint pat o =
          (.ok ⟨sprint, 0, 0, 0, []⟩, [.wiqlCall pat])) ∧
       (ids ≠ [] → (batches200 ids).length = (ids.length + 199) / 200) ∧
       (∀ b ∈ batches200 ids, b.length ≤ 200) ∧
       (batches200 ids).flatten = ids ∧
       (ids ≠ [] → (∀ b : List Nat, o.detail b ≠ .exc) →
         detailCallsOf (get_work_items_by_sprint cfg sprint pat o).2 = batches200 ids ∧
         (get_work_items_by_sprint cfg sprint pat o).1 =
           .ok ⟨sprint,
             ((((batches200 ids).map (detailValue o.detail)).flatten.map
                 (processItem (cfg.org.getD "") (cfg.project.getD "") o.comments)).map
                Prod.fst).length, 0, 0,
             (((batches200 ids).map (detailValue o.detail)).flatten.map
                 (processItem (cfg.org.getD "") (cfg.project.getD "") o.comments)).map
               Prod.fst⟩) ∧
       (ids ≠ [] → (∃ b ∈ batches200 ids, o.detail b = .exc) →
         (get_work_items_by_sprint cfg sprint pat o).1 = .error 500)) := by
  intro cfg sprint pat o ids hc hp hw
  refine ⟨?_, ?_, ?_, ?_, ?_, ?_⟩
  · intro hids
    subst hids
    exact engine_empty_eq cfg sprint pat o hc hp hw
  · intro hne
    exact batchesGo_length ids.length ids (Nat.le_refl _) hne
  · intro b hb
    exact batchesGo_mem ids.length ids b hb
  · exact batchesGo_flatten ids.length ids (Nat.le_refl _)
  · intro hne hdet
    have hfb := fetchBatches_ok o.detail (batches200 ids) (fun b _ => hdet b)
    have heq := engine_success_eq cfg sprint pat o ids
      (((batches200 ids).map (detailValue o.detail)).flatten) (batches200 ids)
      hc hp hw hne hfb
    constructor
    · rw [heq]
      rw [show ((((batches200 ids).map (detailValue o.detail)).flatten.map
            (processItem (cfg.org.getD "") (cfg.project.getD "") o.comments)).map
            Prod.snd).flatten =
          ((((batches200 ids).map (detailValue o.detail)).flatten.filter
              (fun it => 0 < it.fields.commentCount.getD 0)).map
            (fun it => RemoteCall.commentCall it.id)) from
          ccalls_eq (cfg.org.getD "") (cfg.project.getD "") o.comments _]
      exact detailCallsOf_trace pat (batches200 ids) _
    · rw [heq]
  · intro hne hex
    rcases hfb : fetchBatches o.detail (batches200 ids) with ⟨r, done⟩
    have hr : r = none := by
      have := fetchBatches_none o.detail (batches200 ids) hex
      rw [hfb] at this
      exact this
    subst hr
    rw [engine_fetchfail_eq cfg sprint pat o ids done hc hp hw hne hfb]

/-- Witness for C4 (amended): a concrete run whose single batch is
answered with a 404 — the batch is skipped silently and the envelope is
empty while the id was matched. -/
theorem batch_fetch_amended_witness :
    ((([7] : List Nat) = [] →
        get_work_items_by_sprint ⟨some "o", some "p"⟩ "S" "tok"
            ⟨.resp 200 [7], fun _ => .resp 404 [], fun _ => .exc⟩ =
          (.ok ⟨"S", 0, 0, 0, []⟩, [.wiqlCall "tok"])) ∧
     (([7] : List Nat) ≠ [] →
        (batches200 [7]).length = (([7] : List Nat).length + 199) / 200) ∧
     (∀ b ∈ batches200 [7], b.length ≤ 200) ∧
     (batches200 [7]).flatten = [7] ∧
     (([7] : List Nat) ≠ [] →
      (∀ b : List Nat,
          (fun _ => HttpOutcome.resp 404 ([] : List RawItem)) b ≠ .exc) →
        detailCallsOf
            (get_work_items_by_sprint ⟨some "o", some "p"⟩ "S" "tok"
              ⟨.resp 200 [7], fun _ => .resp 404 [], fun _ => .exc⟩).2 =
          batches200 [7] ∧
        (get_work_items_by_sprint ⟨some "o", some "p"⟩ "S" "tok"
            ⟨.resp 200 [7], fun _ => .resp 404 [], fun _ => .exc⟩).1 =
          .ok ⟨"S",
            ((((batches200 [7]).map
                  (detailValue (fun _ => .resp 404 []))).flatten.map
                (processItem ((some "o" : Option String).getD "")
                  ((some "p" : Option String).getD "") (fun _ => .exc))).map
              Prod.fst).length, 0, 0,
            (((batches200 [7]).map
                  (detailValue (fun _ => .resp 404 []))).flatten.map
                (processItem ((some "o" : Option String).getD "")
                  ((some "p" : Option String).getD "") (fun _ => .exc))).map
              Prod.fst⟩) ∧
     (([7] : List Nat) ≠ [] →
      (∃ b ∈ batches200 [7],
          (fun _ => HttpOutcome.resp 404 ([] : List RawItem)) b = .exc) →
        (get_work_items_by_sprint ⟨some "o", some "p"⟩ "S" "tok"
            ⟨.resp 200 [7], fun _ => .resp 404 [], fun _ => .exc⟩).1 = .error 500)) :=
  batch_fetch_amended ⟨some "o", some "p"⟩ "S" "tok"
    ⟨.resp 200 [7], fun _ => .resp 404 [], fun _ => .exc⟩ [7]
    (by decide) (by decide) rfl

/-- Claim C6: on every data endpoint, a missing Authorization header
(with configuration present) is answered with 401 and a missing
org/project configuration (with the header present) is answered with
500, in both cases before any outbound remote call is made (the call
trace is empty). -/
theorem endpoints_auth_config_errors :
    ∀ (cfg : Config) (sprint : String) (oW : EngineOracle)
      (oS : HttpOutcome (List RawIteration)),
      (configOk cfg = true →
        list_sprints cfg none oS = (.error 401, []) ∧
        get_work_items cfg sprint none oW = (.error 401, []) ∧
        get_work_items_summary cfg sprint none oW = (.error 401, [])) ∧
      (configOk cfg = false → ∀ a : String,
        list_sprints cfg (some a) oS = (.error 500, []) ∧
        get_work_items cfg sprint (some a) oW = (.error 500, []) ∧
        get_work_items_summary cfg sprint (some a) oW = (.error 500, [])) := by
  intro cfg sprint oW oS
  constructor
  · intro hc
    refine ⟨?_, rfl, rfl⟩
    rw [list_sprints, hc]
    simp
  · intro hc a
    refine ⟨?_, ?_, ?_⟩
    · rw [list_sprints, hc]
      simp
    · show get_work_items_by_sprint cfg sprint (extractPat a) oW = (.error 500, [])
      rw [get_work_items_by_sprint, hc]
      simp
    · show (match get_work_items_by_sprint cfg sprint (extractPat a) oW with
        | (.error e, calls) => ((.error e : Except Nat SummaryResponse), calls)
        | (.ok result, calls) => (.ok (summarize result), calls)) = (.error 500, [])
      rw [get_work_items_by_sprint, hc]
      simp

/-- Witness for C6: missing header on a configured server gives 401 with
no calls; missing org on an authorised request gives 500 with no calls. -/
theorem endpoints_auth_config_errors_witness :
    list_sprints ⟨some "o", some "p"⟩ none (.resp 200 []) = (.error 401, []) ∧
    get_work_items ⟨none, some "p"⟩ "S" (some "tok")
        ⟨.resp 200 [], fun _ => .exc, fun _ => .exc⟩ = (.error 500, []) :=
  ⟨((endpoints_auth_config_errors ⟨some "o", some "p"⟩ "S"
      ⟨.resp 200 [], fun _ => .exc, fun _ => .exc⟩ (.resp 200 [])).1 (by decide)).1,
   (((endpoints_auth_config_errors ⟨none, some "p"⟩ "S"
      ⟨.resp 200 [], fun _ => .exc, fun _ => .exc⟩ (.resp 200 [])).2 (by decide)) "tok").2.1⟩

/-- Claim C7: the comment fetcher returns the empty list on a raised
exception and on any non-200 status, reduces each comment on success,
and a comment-fetch failure can never change an engine success into an
error (the error status of the engine result does not depend on the
comments oracle at all). -/
theorem comments_best_effort :
    (get_comments_for_item .exc = []) ∧
    (∀ (status : Nat) (body : List RawComment), status ≠ 200 →
      get_comments_for_item (.resp status body) = []) ∧
    (∀ body : List RawComment,
      get_comments_for_item (.resp 200 body) = body.map reduceComment) ∧
    (∀ (cfg : Config) (sprint pat : String) (w : HttpOutcome (List Nat))
       (d : List Nat → HttpOutcome (List RawItem))
       (c c' : Nat → HttpOutcome (List RawComment)),
      errOf (get_work_items_by_sprint cfg sprint pat ⟨w, d, c⟩).1 =
        errOf (get_work_items_by_sprint cfg sprint pat ⟨w, d, c'⟩).1) := by
  refine ⟨rfl, ?_, ?_, ?_⟩
  · intro status body h
    simp [get_comments_for_item, h]
  · intro body
    simp [get_comments_for_item]
  · intro cfg sprint pat w d c c'
    rw [get_work_items_by_sprint, get_work_items_by_sprint]
    by_cases h1 : configOk cfg = false
    · simp [h1]
    · simp only [if_neg h1]
      by_cases h2 : pat = ""
      · simp [h2]
      · simp only [if_neg h2]
        cases w with
        | exc => rfl
        | resp st ids =>
          simp only []
          by_cases h3 : st ≠ 200
          · simp [h3]
          · simp only [if_neg h3]
            by_cases h4 : ids.isEmpty = true
            · simp [h4]
            · simp only [h4, Bool.false_eq_true, if_false, if_neg h4]
              rcases hfb : fetchBatches d (batches200 ids) with ⟨r, done⟩
              cases r with
              | none => simp [hfb, errOf]
              | some items => simp [hfb, errOf]

/-- Witness for C7: a 500-status comment response reduces to no
comments. -/
theorem comments_best_effort_witness :
    get_comments_for_item (.resp 500 [⟨some 1, some "x", none, none⟩]) = [] :=
  comments_best_effort.2.1 500 [⟨some 1, some "x", none, none⟩] (by decide)

/-- Claim C8: during result assembly a comment-fetch call is made for an
item exactly when its reported comment count (default 0) is positive; an
item with count 0 triggers no fetch and its envelope record carries no
comments; over a whole item list, a comment call for id `i` appears in
the trace exactly when some fetched item has id `i` and positive count. -/
theorem comment_fetch_iff_count_pos :
    (∀ (org proj : String) (co : Nat → HttpOutcome (List RawComment)) (item : RawItem),
      (0 < item.fields.commentCount.getD 0 →
        (processItem org proj co item).2 = [RemoteCall.commentCall item.id]) ∧
      (item.fields.commentCount.getD 0 = 0 →
        (processItem org proj co item).2 = [] ∧
        (processItem org proj co item).1.comments = none)) ∧
    (∀ (org proj : String) (co : Nat → HttpOutcome (List RawComment))
       (l : List RawItem) (i : Nat),
      RemoteCall.commentCall i ∈ ((l.map (processItem org proj co)).map Prod.snd).flatten ↔
        ∃ it ∈ l, it.id = i ∧ 0 < it.fields.commentCount.getD 0) := by
  constructor
  · intro org proj co item
    constructor
    · intro h
      simp [processItem, h]
    · intro h
      constructor
      · simp [processItem, h]
      · simp [processItem, h]
  · intro org proj co l i
    rw [ccalls_eq]
    simp only [List.mem_map, List.mem_filter, decide_eq_true_eq]
    constructor
    · rintro ⟨it, ⟨hmem, hcnt⟩, heq⟩
      exact ⟨it, hmem, (RemoteCall.commentCall.injEq _ _).mp heq.symm |>.symm, hcnt⟩
    · rintro ⟨it, hmem, hid, hcnt⟩
      exact ⟨it, ⟨hmem, hcnt⟩, by rw [hid]⟩

/-- Witness for C8: an item reporting one comment produces exactly one
comment call; an item with no reported comments produces none and an
empty comments field. -/
theorem comment_fetch_iff_count_pos_witness :
    (processItem "o" "p" (fun _ => .exc)
        ⟨5, ⟨none, none, none, .absent, .absent, .absent,
             none, none, none, none, none, some 1⟩⟩).2 =
      [RemoteCall.commentCall 5] ∧
    (processItem "o" "p" (fun _ => .exc)
        ⟨6, ⟨none, none, none, .absent, .absent, .absent,
             none, none, none, none, none, none⟩⟩).1.comments = none :=
  ⟨(comment_fetch_iff_count_pos.1 "o" "p" (fun _ => .exc)
      ⟨5, ⟨none, none, none, .absent, .absent, .absent,
           none, none, none, none, none, some 1⟩⟩).1 (by decide),
   ((comment_fetch_iff_count_pos.1 "o" "p" (fun _ => .exc)
      ⟨6, ⟨none, none, none, .absent, .absent, .absent,
           none, none, none, none, none, none⟩⟩).2 (by decide)).2⟩

/-- Every envelope the engine can return has the requested sprint name,
zero counters, and a total count equal to the number of work items. -/
theorem engine_ok_shape :
    ∀ (cfg : Config) (sprint pat : String) (o : EngineOracle) (env : Envelope),
      (get_work_items_by_sprint cfg sprint pat o).1 = .ok env →
      env.sprint = sprint ∧ env.created_by_me = 0 ∧ env.assigned_to_me = 0 ∧
      env.total_count = env.work_items.length := by
  intro cfg sprint pat o env h
  rw [get_work_items_by_sprint] at h
  by_cases h1 : configOk cfg = false
  · rw [if_pos h1] at h
    cases h
  · rw [if_neg h1] at h
    by_cases h2 : pat = ""
    · rw [if_pos h2] at h
      cases h
    · rw [if_neg h2] at h
      cases hw : o.wiql with
      | exc =>
        rw [hw] at h
        cases h
      | resp st ids =>
        rw [hw] at h
        dsimp only at h
        by_cases h3 : st ≠ 200
        · rw [if_pos h3] at h
          cases h
        · rw [if_neg h3] at h
          by_cases h4 : ids.isEmpty = true
          · rw [if_pos h4] at h
            simp only [] at h
            injection h with h
            subst h
            exact ⟨rfl, rfl, rfl, rfl⟩
          · rw [if_neg h4] at h
            rcases hfb : fetchBatches o.detail (batches200 ids) with ⟨r, done⟩
            rw [hfb] at h
            cases r with
            | none => cases h
            | some items =>
              simp only [] at h
              injection h with h
              subst h
              refine ⟨rfl, rfl, rfl, ?_⟩
              simp

/-- Claim C9: every envelope the engine returns satisfies
`total_count = length work_items`, on the empty path and the normal path
alike; under a completed batch fetch the total counts exactly the
successfully fetched items, not the ids the WIQL query matched. -/
theorem total_count_matches_work_items :
    (∀ (cfg : Config) (sprint pat : String) (o : EngineOracle) (env : Envelope),
      (get_work_items_by_sprint cfg sprint pat o).1 = .ok env →
      env.total_count = env.work_items.length) ∧
    (∀ (cfg : Config) (sprint pat : String) (o : EngineOracle) (ids : List Nat)
       (items : List RawItem) (done : List (List Nat)) (env : Envelope),
      configOk cfg = true → pat ≠ "" → o.wiql = .resp 200 ids → ids ≠ [] →
      fetchBatches o.detail (batches200 ids) = (some items, done) →
      (get_work_items_by_sprint cfg sprint pat o).1 = .ok env →
      env.total_count = items.length) := by
  constructor
  · intro cfg sprint pat o env h
    exact (engine_ok_shape cfg sprint pat o env h).2.2.2
  · intro cfg sprint pat o ids items done env hc hp hw hne hfb hok
    rw [engine_success_eq cfg sprint pat o ids items done hc hp hw hne hfb] at hok
    simp only [] at hok
    injection hok with hok
    subst hok
    simp

/-- Witness for C9: a run whose only batch is answered 404 returns an
envelope counting zero items while one id was matched. -/
theorem total_count_matches_work_items_witness :
    (get_work_items_by_sprint ⟨some "o", some "p"⟩ "S" "tok"
        ⟨.resp 200 [7], fun _ => .resp 404 [], fun _ => .exc⟩).1 =
      .ok ⟨"S", 0, 0, 0, []⟩ ∧
    (⟨"S", 0, 0, 0, []⟩ : Envelope).total_count =
      (⟨"S", 0, 0, 0, []⟩ : Envelope).work_items.length :=
  ⟨rfl,
   total_count_matches_work_items.1 ⟨some "o", some "p"⟩ "S" "tok"
     ⟨.resp 200 [7], fun _ => .resp 404 [], fun _ => .exc⟩ ⟨"S", 0, 0, 0, []⟩ rfl⟩

/-- Claim C1: whenever the engine returns an envelope — zero matched ids
or more, whatever the fetched items contain — its created-by-me and
assigned-to-me counters are 0. -/
theorem engine_counters_always_zero :
    ∀ (cfg : Config) (sprint pat : String) (o : EngineOracle) (env : Envelope),
      (get_work_items_by_sprint cfg sprint pat o).1 = .ok env →
      env.created_by_me = 0 ∧ env.assigned_to_me = 0 :=
  fun cfg sprint pat o env h =>
    ⟨(engine_ok_shape cfg sprint pat o env h).2.1,
     (engine_ok_shape cfg sprint pat o env h).2.2.1⟩

/-- Witness for C1: a run that fetches an item created by Bob and
assigned to Alice still reports both counters as 0. -/
theorem engine_counters_always_zero_witness :
    (get_work_items_by_sprint ⟨some "o", some "p"⟩ "S" "tok"
        ⟨.resp 200 [3],
         fun _ => .resp 200 [⟨3, ⟨some "T", some "New", some "Task",
           .strv "Alice", .strv "Bob", .absent,
           none, none, none, none, none, none⟩⟩],
         fun _ => .exc⟩).1 =
      .ok ⟨"S", 1, 0, 0,
        [⟨3, "T", "New", "Task", some "Alice", some "Bob", none, none, none,
          "", none, none, 0, none, "https://dev.azure.com/o/p/_workitems/edit/3"⟩]⟩ ∧
    (⟨"S", 1, 0, 0,
        [⟨3, "T", "New", "Task", some "Alice", some "Bob", none, none, none,
          "", none, none, 0, none, "https://dev.azure.com/o/p/_workitems/edit/3"⟩]⟩ :
       Envelope).created_by_me = 0 ∧
    (⟨"S", 1, 0, 0,
        [⟨3, "T", "New", "Task", some "Alice", some "Bob", none, none, none,
          "", none, none, 0, none, "https://dev.azure.com/o/p/_workitems/edit/3"⟩]⟩ :
       Envelope).assigned_to_me = 0 :=
  ⟨rfl,
   engine_counters_always_zero ⟨some "o", some "p"⟩ "S" "tok"
     ⟨.resp 200 [3],
      fun _ => .resp 200 [⟨3, ⟨some "T", some "New", some "Task",
        .strv "Alice", .strv "Bob", .absent,
        none, none, none, none, none, none⟩⟩],
      fun _ => .exc⟩ _ rfl⟩

/-- A value in which `"Bearer "` does not occur is left unchanged by the
replacement, for any fuel. -/
theorem removeBearerGo_id : ∀ (fuel : Nat) (l : List Char), hasBearer l = false →
    removeBearerGo fuel l = l := by
  intro fuel
  induction fuel with
  | zero =>
    intro l _
    cases l <;> rfl
  | succ fuel ih =>
    intro l h
    cases l with
    | nil => rfl
    | cons c cs =>
      rw [show hasBearer (c :: cs) =
            (startsWith bearerPat (c :: cs) || hasBearer cs) from rfl] at h
      have h1 : startsWith bearerPat (c :: cs) = false := (Bool.or_eq_false_iff.mp h).1
      have h2 : hasBearer cs = false := (Bool.or_eq_false_iff.mp h).2
      rw [show removeBearerGo (fuel + 1) (c :: cs) =
            if startsWith bearerPat (c :: cs) = true then removeBearerGo fuel ((c :: cs).drop 7)
            else c :: removeBearerGo fuel cs from rfl]
      rw [h1]
      simp only [Bool.false_eq_true, if_false]
      rw [ih cs h2]

/-- A whitespace-only value cannot contain `"Bearer "`. -/
theorem hasBearer_of_ws : ∀ l : List Char, (∀ c ∈ l, c.isWhitespace = true) →
    hasBearer l = false := by
  intro l
  induction l with
  | nil => intro _; rfl
  | cons c cs ih =>
    intro h
    have hc := h c (List.mem_cons_self c cs)
    have hstart : startsWith bearerPat (c :: cs) = false := by
      by_cases hcB : ('B' : Char) = c
      · exfalso
        rw [← hcB] at hc
        cases hc
      · rw [show startsWith bearerPat (c :: cs) =
              (decide (('B' : Char) = c) && startsWith ['e', 'a', 'r', 'e', 'r', ' '] cs)
              from rfl]
        simp [hcB]
    rw [show hasBearer (c :: cs) =
          (startsWith bearerPat (c :: cs) || hasBearer cs) from rfl]
    rw [hstart, ih (fun x hx => h x (List.mem_cons_of_mem c hx))]
    rfl

/-- Trimming a whitespace-only value yields the empty list. -/
theorem trimL_ws (l : List Char) (h : ∀ c ∈ l, c.isWhitespace = true) : trimL l = [] := by
  rw [trimL]
  have h1 : l.dropWhile Char.isWhitespace = [] := List.dropWhile_eq_nil_iff.mpr h
  rw [h1]
  rfl

/-- Counterexample to C10 as stated: a header value without the
`"Bearer "` substring is not used verbatim — surrounding whitespace is
still trimmed away. -/
theorem extract_pat_not_verbatim :
    hasBearer (" abc " : String).toList = false ∧
    extractPat " abc " = "abc" ∧ ("abc" : String) ≠ " abc " :=
  ⟨by decide, by decide, by decide⟩

/-- Claim C10 (amended): all three endpoints derive the PAT by deleting
every occurrence of `"Bearer "` anywhere in the header value and then
trimming whitespace; a value without that substring is used after
trimming only; a whitespace-only value or exactly `"Bearer "` yields the
empty PAT; with the empty PAT the work-items and summary endpoints are
rejected with 401 inside the engine (configuration being present), while
the sprints endpoint proceeds to the remote call carrying the empty
credential. -/
theorem extract_pat_amended :
    (∀ s : String, hasBearer s.toList = false →
      extractPat s = String.mk (trimL s.toList)) ∧
    (extractPat "xxBearer yy" = "xxyy") ∧
    (∀ s : String, (∀ c ∈ s.toList, c.isWhitespace = true) → extractPat s = "") ∧
    (extractPat "Bearer " = "") ∧
    (∀ (cfg : Config) (sprint : String) (o : EngineOracle), configOk cfg = true →
      get_work_items_by_sprint cfg sprint "" o = (.error 401, [])) ∧
    (∀ (cfg : Config) (sprint a : String) (o : EngineOracle),
      configOk cfg = true → extractPat a = "" →
      get_work_items cfg sprint (some a) o = (.error 401, []) ∧
      get_work_items_summary cfg sprint (some a) o = (.error 401, [])) ∧
    (∀ (cfg : Config) (a : String) (oS : HttpOutcome (List RawIteration)),
      configOk cfg = true → extractPat a = "" →
      (list_sprints cfg (some a) oS).2 = [RemoteCall.iterationsCall ""]) := by
  have hempty : ∀ (cfg : Config) (sprint : String) (o : EngineOracle),
      configOk cfg = true → get_work_items_by_sprint cfg sprint "" o = (.error 401, []) := by
    intro cfg sprint o hc
    rw [get_work_items_by_sprint, hc]
    simp
  refine ⟨?_, by decide, ?_, by decide, hempty, ?_, ?_⟩
  · intro s h
    rw [extractPat, removeBearer, removeBearerGo_id s.toList.length s.toList h]
  · intro s h
    rw [extractPat, removeBearer, removeBearerGo_id s.toList.length s.toList (hasBearer_of_ws _ h)]
    rw [trimL_ws s.toList h]
  · intro cfg sprint a o hc hpat
    constructor
    · show get_work_items_by_sprint cfg sprint (extractPat a) o = (.error 401, [])
      rw [hpat]
      exact hempty cfg sprint o hc
    · show (match get_work_items_by_sprint cfg sprint (extractPat a) o with
        | (.error e, calls) => ((.error e : Except Nat SummaryResponse), calls)
        | (.ok result, calls) => (.ok (summarize result), calls)) = (.error 401, [])
      rw [hpat, hempty cfg sprint o hc]
  · intro cfg a oS hc hpat
    rw [list_sprints, hc]
    simp only [Bool.true_eq_false, if_false]
    cases oS with
    | exc => rw [hpat]
    | resp st iters =>
      by_cases h3 : st ≠ 200
      · simp only [if_pos h3]
        rw [hpat]
      · simp only [if_neg h3]
        rw [hpat]

/-- Witness for C10 (amended): concrete instances of the no-occurrence,
whitespace-only and empty-PAT behaviours. -/
theorem extract_pat_amended_witness :
    extractPat "tok" = String.mk (trimL ("tok" : String).toList) ∧
    extractPat "   " = "" ∧
    get_work_items ⟨some "o", some "p"⟩ "S" (some "Bearer ")
        ⟨.resp 200 [], fun _ => .exc, fun _ => .exc⟩ = (.error 401, []) ∧
    (list_sprints ⟨some "o", some "p"⟩ (some "   ") (.resp 200 [])).2 =
      [RemoteCall.iterationsCall ""] :=
  ⟨extract_pat_amended.1 "tok" (by decide),
   extract_pat_amended.2.2.1 "   " (by decide),
   (extract_pat_amended.2.2.2.2.2.1 ⟨some "o", some "p"⟩ "S" "Bearer "
     ⟨.resp 200 [], fun _ => .exc, fun _ => .exc⟩ (by decide) (by decide)).1,
   extract_pat_amended.2.2.2.2.2.2 ⟨some "o", some "p"⟩ "   " (.resp 200 [])
     (by decide) (by decide)⟩
